import Mathlib

/-!
Verification of the jotai-yjs projection layer.

This file gives a shallow embedding of the engine in `src/index.ts`
(`createYAtom` and its specialised factories) and of the equality utilities in
`src/utils.ts`, and proves (or refutes) the behavioural claims about them.

Conventions used throughout the embedding:
  * JavaScript numbers are modelled by `JsNum` (NaN, signed zero, infinities
    and finite rationals are distinguished); JavaScript values by `JsVal`,
    with objects represented as heap ids resolved through a `Heap`.
  * Yjs nodes are identified by `Nat` ids; a system state carries every
    node's current content as a function from ids.
  * Jotai cells of the engine (`snapAtom`, `lastYAtom`, `yRefAtom`) become
    fields of an explicit state record; the `UNSET` sentinel becomes `none`.
  * Fallible JavaScript evaluation (a thrown `TypeError`) is `Except String`.
-/

/-- JS number model: `NaN`, negative zero and the infinities are distinguished
from finite numbers; finite numbers (including `+0`) are rationals. -/
inductive JsNum where
  | nan
  | negZero
  | posInf
  | negInf
  | fin (q : ℚ)
deriving DecidableEq, Repr

/-- JS value model: primitives plus object references (heap ids). Two `obj`
values with the same id are the same object reference. -/
inductive JsVal where
  | undefined
  | null
  | bool (b : Bool)
  | num (n : JsNum)
  | str (s : String)
  | obj (id : Nat)
deriving DecidableEq, Repr

/-- A heap assigns to every object id its own enumerable string-keyed
properties, in definition order. A well-formed JS object never repeats a key;
theorems that depend on this take it as an explicit `Nodup` hypothesis. -/
def Heap : Type := Nat → List (String × JsVal)

/-- `Object.is` (SameValue). On this model it is structural equality: for
objects that is reference (id) equality, `Object.is(NaN, NaN)` is true, and
`Object.is(0, -0)` is false because `+0` and `-0` are distinct constructors. -/
def objectIs (a b : JsVal) : Bool := a == b

/-- Own-property lookup: `Object.prototype.hasOwnProperty.call(o, k)` together
with the subsequent `o[k]` access (`none` = no own property). -/
def jsLookup : List (String × JsVal) → String → Option JsVal
  | [], _ => none
  | e :: r, k => if e.1 == k then some e.2 else jsLookup r k

/-- `shallowEqual` from `src/utils.ts` (lines 7-37): `Object.is` first; bail
out with `false` unless both operands are non-null objects; then compare own
enumerable key counts and, for every key of `a`, require `b` to own the key
with an `Object.is`-equal value. No recursion into nested objects. -/
def shallowEqual (σ : Heap) (a b : JsVal) : Bool :=
  if objectIs a b then true
  else
    match a, b with
    | .obj ia, .obj ib =>
      let ea := σ ia
      let eb := σ ib
      if ea.length = eb.length then
        ea.all fun e =>
          match jsLookup eb e.1 with
          | some w => objectIs e.2 w
          | none => false
      else false
    | _, _ => false

/-- Modelled from the spec: `deepEquals` in `src/utils.ts` re-exports the
external library es-toolkit's `isEqual`, which the spec (§4.1) describes as
"full recursive structural equality (objects, arrays, primitives)". The
recursion depth is bounded by an explicit `fuel` because a heap may be cyclic;
at depth 0 it degrades to `Object.is`. -/
def deepEqualsF (σ : Heap) : Nat → JsVal → JsVal → Bool
  | 0, a, b => objectIs a b
  | fuel + 1, a, b =>
    if objectIs a b then true
    else
      match a, b with
      | .obj ia, .obj ib =>
        let ea := σ ia
        let eb := σ ib
        if ea.length = eb.length then
          ea.all fun e =>
            match jsLookup eb e.1 with
            | some w => deepEqualsF σ fuel e.2 w
            | none => false
        else false
      | _, _ => false

/-- `defaultEquals` (`src/index.ts` line 8): the engine's default equality is
`shallowEqual`, not deep equality. -/
def defaultEquals (σ : Heap) (a b : JsVal) : Bool := shallowEqual σ a b

/-!
## The generic engine (`createYAtom`, `src/index.ts` lines 104-254)

`C` is the content of one Yjs node; `V` is the snapshot type `T`. Nodes are
identified by `Nat` ids and the current content of every node is a function
`Nat → C` carried in the system state. The engine's three internal cells
(`snapAtom`, `lastYAtom`, `yRefAtom`) and the node currently observed by
`subscribeY` are explicit state fields.
-/

/-- Configuration of one binding, as resolved by the destructuring at the top
of `createYAtom` (`src/index.ts` lines 107-116): the caller's `read`, the
optional `write`, the resolved `equals`, the `resubscribeOnSourceChange` flag
and whether the source was supplied as a dynamic atom (`hasYAtom`). -/
structure EngineCfg (C V : Type) where
  read : C → V
  write : Option (C → V → C)
  equals : V → V → Bool
  resubscribe : Bool
  hasYAtom : Bool

/-- State of one binding together with its collaborators: `source` is the
current value of `ySourceAtom` (a node id), `content` the current content of
every node, `snap` is `snapAtom` (`none` = the `UNSET` sentinel), `lastY` is
`lastYAtom`, `yRef` is `yRefAtom`, and `subscribedTo` is the node the live
`subscribeY` observer is attached to (`none` = not mounted). -/
structure Sys (C V : Type) where
  source : Nat
  content : Nat → C
  snap : Option V
  lastY : Option Nat
  yRef : Option Nat
  subscribedTo : Option Nat

/-- `getActiveY` (`src/index.ts` lines 159-162): the live source value when
resubscription is enabled, otherwise the pinned node (falling back to the
source while the pin is still unset). -/
def getActiveY {C V : Type} (cfg : EngineCfg C V) (s : Sys C V) : Nat :=
  if cfg.resubscribe then s.source else s.yRef.getD s.source

/-- The read function of `stateAtom` (`src/index.ts` lines 135-144): with
resubscription enabled and a stale `lastYAtom`, read the current source node
directly; otherwise serve the cached snapshot if set, else read directly. -/
def stateAtomRead {C V : Type} (cfg : EngineCfg C V) (s : Sys C V) : V :=
  let y := s.source
  if cfg.resubscribe ∧ s.lastY ≠ some y then cfg.read (s.content y)
  else
    match s.snap with
    | some v => v
    | none => cfg.read (s.content y)

/-- The `'sync'` branch of `subscriptionAtom`'s write (`src/index.ts` lines
195-205): recompute from the active node, overwrite the cache when it is unset
or the value is not `equals`-equal, and always stamp `lastYAtom`. -/
def subscriptionSync {C V : Type} (cfg : EngineCfg C V) (s : Sys C V) : Sys C V :=
  let y := getActiveY cfg s
  let next := cfg.read (s.content y)
  let s1 :=
    match s.snap with
    | none => { s with snap := some next }
    | some prev => if cfg.equals prev next then s else { s with snap := some next }
  { s1 with lastY := some y }

/-- The `'init'` branch of `subscriptionAtom`'s write (`src/index.ts` lines
211-222): when resubscription is disabled, pin the first source value into
`yRefAtom`; when the source is a dynamic atom, also seed the first snapshot
and stamp `lastYAtom` (same body as `'sync'`). -/
def subscriptionInit {C V : Type} (cfg : EngineCfg C V) (s : Sys C V) : Sys C V :=
  let s1 := if cfg.resubscribe then s else { s with yRef := some s.source }
  if cfg.hasYAtom then
    let y := getActiveY cfg s1
    let next := cfg.read (s1.content y)
    let s2 :=
      match s1.snap with
      | none => { s1 with snap := some next }
      | some prev => if cfg.equals prev next then s1 else { s1 with snap := some next }
    { s2 with lastY := some y }
  else s1

/-- Mounting the binding: `subscriptionAtom`'s read installs the `subscribeY`
observer on the active node (`src/index.ts` lines 166-177), then `onMount`
dispatches the `'init'` action (line 251). -/
def mountBinding {C V : Type} (cfg : EngineCfg C V) (s : Sys C V) : Sys C V :=
  subscriptionInit cfg { s with subscribedTo := some (getActiveY cfg s) }

/-- The source reference changes value. With `resubscribeOnSourceChange` the
subscription effect re-runs against the new node (its read depends on
`ySourceAtom` through `getActiveY`), tearing down the old observer and
installing a new one; with pinning enabled the effect no longer reads
`ySourceAtom` once `yRefAtom` is set, so the observer stays where it is. -/
def switchSource {C V : Type} (cfg : EngineCfg C V) (s : Sys C V) (n : Nat) : Sys C V :=
  let s1 := { s with source := n }
  if cfg.resubscribe then { s1 with subscribedTo := some (getActiveY cfg s1) } else s1

/-- A Yjs change event on node `n` reaches the handler installed by
`subscribeY` only when the binding is observing `n`; the handler dispatches
the `'sync'` action (`src/index.ts` lines 170-177). -/
def deliverEvent {C V : Type} (cfg : EngineCfg C V) (s : Sys C V) (n : Nat) : Sys C V :=
  if s.subscribedTo = some n then subscriptionSync cfg s else s

/-- An external mutation replacing node `n`'s content, followed by Yjs's
synchronous change-event delivery for that node. -/
def extMutate {C V : Type} (cfg : EngineCfg C V) (s : Sys C V) (n : Nat) (c : C) : Sys C V :=
  deliverEvent cfg { s with content := Function.update s.content n c } n

/-- The argument of `set`: a direct value or a functional updater. -/
inductive Updater (V : Type) where
  | value (v : V)
  | fn (f : V → V)

/-- Updater resolution (`src/index.ts` lines 237-240). -/
def Updater.resolve {V : Type} : Updater V → V → V
  | .value v, _ => v
  | .fn f, current => f current

/-- Result of the `set` path: the new system state and whether `withTransact`
was invoked (and with it the caller's `write`). -/
structure SetResult (C V : Type) where
  sys : Sys C V
  txRan : Bool

/-- The write function of the public `out` atom (`src/index.ts` lines
233-247): no-op without a `write`; resolve `current = read(activeNode)` and
the updater; skip entirely when `equals(current, next)`; otherwise run the
caller's `write` against the active node inside `withTransact`. No snapshot
cell is ever touched on this path. -/
def outWrite {C V : Type} (cfg : EngineCfg C V) (s : Sys C V) (update : Updater V) :
    SetResult C V :=
  match cfg.write with
  | none => ⟨s, false⟩
  | some w =>
    let y := getActiveY cfg s
    let current := cfg.read (s.content y)
    let next := update.resolve current
    if cfg.equals current next then ⟨s, false⟩
    else ⟨{ s with content := Function.update s.content y (w (s.content y) next) }, true⟩

/-!
## Nullable active node (claim C1)

The repository's own tests ("supports nullable yAtom sources",
`tests/edge-cases.test.ts`) drive the engine with a `yAtom` source whose
current value is `null`, expecting `get()` to return `read(null)` and `set`
to warn and no-op. The code of `src/index.ts` has no null guard: member
accesses on the null node throw a `TypeError`. The two definitions below
embed exactly the two accesses that evaluate on a null node.
-/

/-- `subscribeY` (`src/index.ts` lines 39-41) evaluated on the active node:
`y.observe(handler)` is called unconditionally, so a null node makes the
mount path (and hence the very first `get()`) throw a `TypeError`. -/
def subscribeYNullable (y : Option Nat) : Except String Unit :=
  match y with
  | none => .error "TypeError: Cannot read properties of null (reading observe)"
  | some _ => .ok ()

/-- `out`'s write path with a nullable active node (`src/index.ts` lines
233-247). `yc` is the content of the active node (`none` = the node is null);
the caller's `read` tolerates null. When `equals` does not suppress the
write, the code evaluates `y.doc` to call `withTransact`, which throws a
`TypeError` on a null node — before any warning could be emitted. On success
the result is the node's new content (`none` when the write was skipped). -/
def outWriteNullable (read : Option Int → Int) (write : Int → Int → Int)
    (equals : Int → Int → Bool) (yc : Option Int) (next : Int) :
    Except String (Option Int) :=
  let current := read yc
  if equals current next then .ok none
  else
    match yc with
    | none => .error "TypeError: Cannot read properties of null (reading doc)"
    | some c => .ok (some (write c next))

/-!
## Array-index event filter (claim C5, `createYArrayIndexAtom`)
-/

/-- One run of a Yjs positional array delta. -/
inductive DeltaOp (T : Type) where
  | retain (n : Nat)
  | insert (items : List T)
  | delete (n : Nat)
deriving DecidableEq, Repr

/-- The loop body of the `eventFilter` of `createYArrayIndexAtom`
(`src/index.ts` lines 468-494), walking the delta with a running position
`pos`: retains advance `pos`; an insert at `pos ≤ index` is relevant,
otherwise `pos` advances by the inserted length; a delete is relevant when it
overlaps the index or starts at or before it, and otherwise does not advance
`pos`. -/
def arrayIndexFilterFrom {T : Type} (index : Nat) : Nat → List (DeltaOp T) → Bool
  | _, [] => false
  | pos, .retain n :: rest => arrayIndexFilterFrom index (pos + n) rest
  | pos, .insert items :: rest =>
      if pos ≤ index then true
      else arrayIndexFilterFrom index (pos + items.length) rest
  | pos, .delete n :: rest =>
      if pos ≤ index ∧ pos + n > index then true
      else if pos ≤ index then true
      else arrayIndexFilterFrom index pos rest

/-- The `eventFilter` of `createYArrayIndexAtom` on a present positional
delta (`let pos = 0` at `src/index.ts` line 472). -/
def arrayIndexEventFilter {T : Type} (index : Nat) (delta : List (DeltaOp T)) : Bool :=
  arrayIndexFilterFrom index 0 delta

/-- Each run of a delta paired with its start position, scanning left to
right: retains and inserts advance the cursor, deletes do not (positions are
in the evolving document, mirroring how the filter walks the delta). -/
def opStartPositions {T : Type} : Nat → List (DeltaOp T) → List (Nat × DeltaOp T)
  | _, [] => []
  | pos, .retain n :: rest => (pos, .retain n) :: opStartPositions (pos + n) rest
  | pos, .insert items :: rest =>
      (pos, .insert items) :: opStartPositions (pos + items.length) rest
  | pos, .delete n :: rest => (pos, .delete n) :: opStartPositions pos rest

/-- The claim's relevance predicate on a positioned run: an insert at or
before the tracked index, or a delete overlapping the tracked index or
starting at or before it; retains are never relevant. -/
def relevantOp {T : Type} (index : Nat) : Nat × DeltaOp T → Bool
  | (_, .retain _) => false
  | (pos, .insert _) => decide (pos ≤ index)
  | (pos, .delete n) => decide (pos ≤ index ∧ index < pos + n) || decide (pos ≤ index)

/-!
## Construction-time validation (claim C6)

Every factory's validation block is wrapped in
`if (process.env.NODE_ENV !== 'production')`; the `production` argument below
models that environment check. A factory returns a constructed handle, so an
error short-circuits before any atom exists.
-/

/-- Witness that the factory ran to completion and built its atom. -/
structure FactoryHandle where
  made : Bool
deriving DecidableEq, Repr

/-- `typeof key === 'string' && key !== ''` (negation of the validation
condition of the key-based factories). -/
def isNonEmptyString : JsVal → Bool
  | .str s => s ≠ ""
  | _ => false

/-- `Number.isInteger` on the JS number model (`-0` is an integer). -/
def jsIsInteger : JsNum → Bool
  | .fin q => q.den == 1
  | .negZero => true
  | _ => false

/-- `index < 0` on the JS number model (`NaN < 0` and `-0 < 0` are false). -/
def jsLtZero : JsNum → Bool
  | .fin q => decide (q < 0)
  | .negInf => true
  | _ => false

/-- `createYMapKeyAtom`'s construction (`src/index.ts` lines 277-281): the
key check runs only outside production mode. -/
def createYMapKeyAtomF (production : Bool) (key : JsVal) : Except String FactoryHandle :=
  if production = false then
    if isNonEmptyString key = false then
      .error "[y-jotai] Map key must be a non-empty string"
    else .ok ⟨true⟩
  else .ok ⟨true⟩

/-- `createYMapEntryAtom`'s construction (`src/index.ts` lines 383-387): the
same dev-only key check. -/
def createYMapEntryAtomF (production : Bool) (key : JsVal) : Except String FactoryHandle :=
  if production = false then
    if isNonEmptyString key = false then
      .error "[y-jotai] Map key must be a non-empty string"
    else .ok ⟨true⟩
  else .ok ⟨true⟩

/-- `createYArrayIndexAtom`'s construction (`src/index.ts` lines 446-450):
`!Number.isInteger(index) || index < 0` throws, dev-only. -/
def createYArrayIndexAtomF (production : Bool) (index : JsNum) : Except String FactoryHandle :=
  if production = false then
    if jsIsInteger index = false ∨ jsLtZero index = true then
      .error "[y-jotai] Array index must be a non-negative integer"
    else .ok ⟨true⟩
  else .ok ⟨true⟩

/-- `createYPathAtom`'s construction (`src/index.ts` lines 724-728): an empty
path array throws, dev-only. Path segments are strings or JS numbers. -/
def createYPathAtomF (production : Bool) (path : List (String ⊕ JsNum)) :
    Except String FactoryHandle :=
  if production = false then
    if path.length = 0 then
      .error "[y-jotai] Path must be a non-empty array"
    else .ok ⟨true⟩
  else .ok ⟨true⟩

/-!
## Full-text projection write (claim C7, `createYTextAtom`)

Text is modelled as `List Char`. The external diff library (`fast-diff`) is
used by the source only through its contract: it returns an edit script of
EQUAL / INSERT / DELETE runs between the current and the next string, meaning
the EQUAL and DELETE runs concatenate to the current string and the EQUAL and
INSERT runs concatenate to the next string. The write loop is embedded
faithfully and proved correct for every script satisfying that contract.
-/

/-- One run of a `fast-diff` edit script. -/
inductive DiffOp where
  | equal (t : List Char)
  | ins (t : List Char)
  | del (t : List Char)
deriving DecidableEq, Repr

/-- The old string a script edits: concatenation of EQUAL and DELETE runs. -/
def scriptOld : List DiffOp → List Char
  | [] => []
  | .equal t :: r => t ++ scriptOld r
  | .ins _ :: r => scriptOld r
  | .del t :: r => t ++ scriptOld r

/-- The new string a script produces: concatenation of EQUAL and INSERT
runs. -/
def scriptNew : List DiffOp → List Char
  | [] => []
  | .equal t :: r => t ++ scriptNew r
  | .ins t :: r => t ++ scriptNew r
  | .del _ :: r => scriptNew r

/-- A positional Y.Text operation, as issued by the write loop. -/
inductive TextOp where
  | insertAt (offset : Nat) (t : List Char)
  | deleteAt (offset : Nat) (len : Nat)
deriving DecidableEq, Repr

/-- `Y.Text.insert` / `Y.Text.delete` on the string model. -/
def applyTextOp (s : List Char) : TextOp → List Char
  | .insertAt off t => s.take off ++ t ++ s.drop off
  | .deleteAt off len => s.take off ++ s.drop (off + len)

/-- The patch loop of `createYTextAtom`'s write (`src/index.ts` lines
680-693): DELETE runs issue `t.delete(offset, len)` without advancing the
offset, INSERT runs issue `t.insert(offset, text)` and advance it, EQUAL runs
only advance it. Returns the final text and the issued operations. -/
def textPatchLoop (offset : Nat) (t : List Char) : List DiffOp → List Char × List TextOp
  | [] => (t, [])
  | .del d :: r =>
      let t1 := applyTextOp t (.deleteAt offset d.length)
      let res := textPatchLoop offset t1 r
      (res.1, .deleteAt offset d.length :: res.2)
  | .ins i :: r =>
      let t1 := applyTextOp t (.insertAt offset i)
      let res := textPatchLoop (offset + i.length) t1 r
      (res.1, .insertAt offset i :: res.2)
  | .equal e :: r => textPatchLoop (offset + e.length) t r

/-- `createYTextAtom`'s write (`src/index.ts` lines 676-694), parametrised by
the external diff library: if the current content already equals `next`,
return before diffing (no operations); otherwise apply the edit script
positionally starting at offset 0. -/
def yTextWrite (diffFn : List Char → List Char → List DiffOp)
    (t next : List Char) : List Char × List TextOp :=
  let current := t
  if current = next then (t, [])
  else textPatchLoop 0 t (diffFn current next)

/-!
## Multi-key fields projection write (claim C8, `createYMapFieldsAtom`)

A `Y.Map` is an insertion-ordered association list with unique keys; the
`next` object written through the projection is likewise a list of own
properties (a key present with value `undefined` is distinct from an absent
key, matching `Object.prototype.hasOwnProperty`).
-/

/-- Y.Map content model. -/
abbrev YMapM : Type := List (String × JsVal)

/-- `Y.Map.has`. -/
def ymHas (m : YMapM) (k : String) : Bool :=
  List.any m (fun e => e.1 == k)

/-- `Y.Map.get` (`none` = the key is absent, i.e. JS `undefined`). -/
def ymGet (m : YMapM) (k : String) : Option JsVal :=
  jsLookup m k

/-- `Y.Map.set`: replace in place when present, append otherwise. -/
def ymSet (m : YMapM) (k : String) (v : JsVal) : YMapM :=
  if ymHas m k then List.map (fun e => if e.1 == k then (k, v) else e) m
  else m ++ [(k, v)]

/-- `Y.Map.delete`. -/
def ymDelete (m : YMapM) (k : String) : YMapM :=
  List.filter (fun e => !(e.1 == k)) m

/-- `Object.prototype.hasOwnProperty.call(next, key)`. -/
def hasOwn (o : List (String × JsVal)) (k : String) : Bool :=
  List.any o (fun e => e.1 == k)

/-- `next[key]` for an own property (`undefined` when absent, but the write
loop only evaluates it behind the `hasOwnProperty` guard). -/
def getOwn (o : List (String × JsVal)) (k : String) : JsVal :=
  (jsLookup o k).getD .undefined

/-- A CRDT operation issued against the map by the fields write loop. -/
inductive MapWriteOp where
  | setOp (k : String) (v : JsVal)
  | delOp (k : String)
deriving DecidableEq, Repr

/-- The key of an issued operation. -/
def MapWriteOp.key : MapWriteOp → String
  | .setOp k _ => k
  | .delOp k => k

/-- One iteration of the write loop of `createYMapFieldsAtom`
(`src/index.ts` lines 629-653): skip keys absent from `next`; an `undefined`
value deletes the key only under `deleteOnUndefined` (and only when present)
and is otherwise ignored; a missing key is set unconditionally; a present key
is rewritten only when `fieldEquals` says the stored value differs. -/
def fieldsWriteKey (deleteOnUndefined : Bool) (fieldEquals : JsVal → JsVal → Bool)
    (nextObj : List (String × JsVal)) (m : YMapM) (key : String) :
    YMapM × List MapWriteOp :=
  if hasOwn nextObj key = false then (m, [])
  else if getOwn nextObj key = .undefined then
    if deleteOnUndefined ∧ ymHas m key then (ymDelete m key, [.delOp key])
    else (m, [])
  else if ymHas m key = false then
    (ymSet m key (getOwn nextObj key), [.setOp key (getOwn nextObj key)])
  else if fieldEquals ((ymGet m key).getD .undefined) (getOwn nextObj key) then (m, [])
  else (ymSet m key (getOwn nextObj key), [.setOp key (getOwn nextObj key)])

/-- The full write loop of `createYMapFieldsAtom` over the configured keys,
collecting the CRDT operations it issues. -/
def fieldsWrite (deleteOnUndefined : Bool) (fieldEquals : JsVal → JsVal → Bool)
    (nextObj : List (String × JsVal)) (m : YMapM) :
    List String → YMapM × List MapWriteOp
  | [] => (m, [])
  | k :: ks =>
    ((fieldsWrite deleteOnUndefined fieldEquals nextObj
        (fieldsWriteKey deleteOnUndefined fieldEquals nextObj m k).1 ks).1,
      (fieldsWriteKey deleteOnUndefined fieldEquals nextObj m k).2 ++
        (fieldsWrite deleteOnUndefined fieldEquals nextObj
          (fieldsWriteKey deleteOnUndefined fieldEquals nextObj m k).1 ks).2)

/-- The default per-field equality of `createYMapFieldsAtom`
(`src/index.ts` line 602): `Object.is`. -/
def defaultFieldEquals : JsVal → JsVal → Bool := objectIs

/-- The operations a write issued against one particular key. -/
def opsOn (k : String) (ops : List MapWriteOp) : List MapWriteOp :=
  List.filter (fun o => o.key == k) ops

/-- Second definition, transcribed from the words of claim C8 rather than
from the source, for comparison: the expected post-state and issued
operations at one configured key, as a function of the key's stored value
`g` before the write (`none` = absent). -/
def fieldsWriteSpec (deleteOnUndefined : Bool) (fieldEquals : JsVal → JsVal → Bool)
    (nextObj : List (String × JsVal)) (k : String) (g : Option JsVal) :
    Option JsVal × List MapWriteOp :=
  if hasOwn nextObj k = false then (g, [])
  else if getOwn nextObj k = .undefined then
    if deleteOnUndefined ∧ g.isSome then (none, [.delOp k]) else (g, [])
  else if g.isSome = false then (some (getOwn nextObj k), [.setOp k (getOwn nextObj k)])
  else if fieldEquals (g.getD .undefined) (getOwn nextObj k) then (g, [])
  else (some (getOwn nextObj k), [.setOp k (getOwn nextObj k)])

/-!
## Theorems
-/

/-- C1: the claim says that with a null resolved source node, `set(v)` is a
no-op that warns but does not throw, and `get()` returns `read(null)` without
throwing. The code contradicts this (and the repository's own tests): the
mount path evaluates `y.observe` and the write path evaluates `y.doc` on the
null node, and both throw a `TypeError`. This theorem evaluates both embedded
paths at the failing input of the test "supports nullable yAtom sources"
(`read(null) = -1`, `set(aAtom, 5)`). -/
theorem claim_C1_null_source_throws :
    subscribeYNullable none =
      .error "TypeError: Cannot read properties of null (reading observe)" ∧
    outWriteNullable (fun o => o.getD (-1)) (fun _ v => v) (fun a b => a == b) none 5 =
      .error "TypeError: Cannot read properties of null (reading doc)" := by
  exact ⟨rfl, rfl⟩

/-- C2: on a projection with a `write` function, `set` resolves
`current = read(activeNode)`; when `equals(current, next)` it does nothing at
all (state unchanged, `withTransact` never invoked); otherwise it runs the
caller's `write` against the active node inside `withTransact`; and in every
case the set path leaves `snapAtom` (and the other engine cells) untouched —
the cache is only ever written by the subscription's `'sync'` action. -/
theorem claim_C2_set_path {C V : Type} (cfg : EngineCfg C V) (w : C → V → C)
    (hw : cfg.write = some w) (s : Sys C V) (update : Updater V) :
    (cfg.equals (cfg.read (s.content (getActiveY cfg s)))
        (update.resolve (cfg.read (s.content (getActiveY cfg s)))) = true →
      outWrite cfg s update = ⟨s, false⟩) ∧
    (cfg.equals (cfg.read (s.content (getActiveY cfg s)))
        (update.resolve (cfg.read (s.content (getActiveY cfg s)))) = false →
      (outWrite cfg s update).txRan = true ∧
      (outWrite cfg s update).sys.content =
        Function.update s.content (getActiveY cfg s)
          (w (s.content (getActiveY cfg s))
            (update.resolve (cfg.read (s.content (getActiveY cfg s)))))) ∧
    (outWrite cfg s update).sys.snap = s.snap ∧
    (outWrite cfg s update).sys.lastY = s.lastY ∧
    (outWrite cfg s update).sys.yRef = s.yRef ∧
    (outWrite cfg s update).sys.subscribedTo = s.subscribedTo := by
  refine ⟨fun h => ?_, fun h => ?_, ?_, ?_, ?_, ?_⟩ <;>
    simp only [outWrite, hw] <;>
    first
      | simp [h]
      | (by_cases h : cfg.equals (cfg.read (s.content (getActiveY cfg s)))
            (update.resolve (cfg.read (s.content (getActiveY cfg s)))) = true <;>
          simp [h])

/-- Concrete configuration for the C2 witness: an integer-content node with an
identity read and a replace write. -/
def wC2 : Int → Int → Int := fun _ v => v

def cfgC2 : EngineCfg Int Int :=
  ⟨id, some wC2, fun a b => a == b, false, false⟩

def sC2 : Sys Int Int :=
  ⟨0, fun _ => 1, none, none, none, none⟩

/-- Witness for C2 at a concrete input: the hypotheses hold and the set path
leaves the snapshot cell untouched. -/
theorem claim_C2_set_path_witness :
    cfgC2.write = some wC2 ∧
    (outWrite cfgC2 sC2 (Updater.value 5)).sys.snap = sC2.snap :=
  ⟨rfl, (claim_C2_set_path cfgC2 wC2 rfl sC2 (Updater.value 5)).2.2.1⟩

/-- C3: `get()` returns the cached snapshot when it is set and (with
`resubscribeOnSourceChange`) `lastYAtom` still equals the current source
value; it returns a fresh read of the current source node when the cache is
unset or (with resubscription) the active-node reference is stale. In
particular, immediately after the source switches to a node `b` that
`lastYAtom` does not reflect, `get()` is a direct read of `b`, before any
change event on `b` fires. -/
theorem claim_C3_get_contract {C V : Type} (cfg : EngineCfg C V) :
    (∀ (s : Sys C V) (v : V), s.snap = some v →
        (cfg.resubscribe = true → s.lastY = some s.source) →
        stateAtomRead cfg s = v) ∧
    (∀ s : Sys C V, s.snap = none →
        stateAtomRead cfg s = cfg.read (s.content s.source)) ∧
    (∀ s : Sys C V, cfg.resubscribe = true → s.lastY ≠ some s.source →
        stateAtomRead cfg s = cfg.read (s.content s.source)) ∧
    (∀ (s : Sys C V) (b : Nat), cfg.resubscribe = true → s.lastY ≠ some b →
        stateAtomRead cfg (switchSource cfg s b) = cfg.read (s.content b)) := by
  refine ⟨?_, ?_, ?_, ?_⟩
  · intro s v hs himp
    by_cases hr : cfg.resubscribe = true
    · have hl := himp hr
      simp [stateAtomRead, hs, hl, hr]
    · simp at hr
      simp [stateAtomRead, hs, hr]
  · intro s hs
    unfold stateAtomRead
    simp only [hs]
    split <;> rfl
  · intro s hr hne
    simp [stateAtomRead, hr, hne]
  · intro s b hr hne
    simp [switchSource, stateAtomRead, hr, hne]

/-- Concrete scenario for the C3 witness: node 0 holds 1, node 1 holds 100,
the binding is mounted against node 0 with resubscription enabled. -/
def cfgC3 : EngineCfg Int Int :=
  ⟨id, none, fun a b => a == b, true, true⟩

def sC3 : Sys Int Int :=
  ⟨0, fun n => if n = 0 then 1 else 100, some 1, some 0, none, some 0⟩

/-- Witness for C3: switching the source from node 0 (value 1) to node 1
(value 100) makes an immediate `get()` return 100, a direct read of the new
node, before any change event on it. -/
theorem claim_C3_get_contract_witness :
    stateAtomRead cfgC3 (switchSource cfgC3 sC3 1) = 100 := by
  have h := (claim_C3_get_contract cfgC3).2.2.2 sC3 1 rfl (by decide)
  simpa using h

/-- The binding is pinned to node `a`: `yRefAtom` holds `a`, the live
observer is attached to `a`, and the snapshot cache has been seeded. The
C4 theorem shows mounting establishes this and every later step preserves
it. -/
def PinnedOn {C V : Type} (a : Nat) (s : Sys C V) : Prop :=
  s.yRef = some a ∧ s.subscribedTo = some a ∧ s.snap.isSome = true

/-- Helper: one `'sync'` action either refreshes the snapshot to a fresh read
of the active node or (under `equals` suppression) leaves it unchanged. -/
theorem sync_snap_cases {C V : Type} (cfg : EngineCfg C V) (s : Sys C V) :
    (subscriptionSync cfg s).snap = some (cfg.read (s.content (getActiveY cfg s))) ∨
    (subscriptionSync cfg s).snap = s.snap := by
  unfold subscriptionSync
  cases hs : s.snap with
  | none => left; simp [hs]
  | some prev =>
    by_cases he : cfg.equals prev (cfg.read (s.content (getActiveY cfg s))) = true
    · right; simp [hs, he]
    · left; simp [hs, he]

/-- C4: with `resubscribeOnSourceChange = false` and a dynamic source, the
node observed at mount initialization is pinned for the binding's lifetime:
mounting pins the then-current source node and seeds the snapshot from it;
afterwards, switching the source reference never changes `get()`'s value and
keeps the pin; change events on any other node leave the snapshot (and
`get()`) untouched; and a change event on the pinned node is the only thing
that moves the snapshot (to a fresh read of that node, unless suppressed by
`equals`). -/
theorem claim_C4_pinned_source {C V : Type} (cfg : EngineCfg C V)
    (hres : cfg.resubscribe = false) (hdyn : cfg.hasYAtom = true) :
    (∀ s : Sys C V, s.snap = none → s.yRef = none →
        PinnedOn s.source (mountBinding cfg s) ∧
        (mountBinding cfg s).snap = some (cfg.read (s.content s.source))) ∧
    (∀ (s : Sys C V) (a : Nat), PinnedOn a s →
      (∀ b : Nat,
          stateAtomRead cfg (switchSource cfg s b) = stateAtomRead cfg s ∧
          PinnedOn a (switchSource cfg s b)) ∧
      (∀ (n : Nat) (c : C), n ≠ a →
          stateAtomRead cfg (extMutate cfg s n c) = stateAtomRead cfg s ∧
          (extMutate cfg s n c).snap = s.snap ∧
          PinnedOn a (extMutate cfg s n c)) ∧
      (∀ c : C,
          (extMutate cfg s a c).snap = some (cfg.read c) ∨
          (extMutate cfg s a c).snap = s.snap)) := by
  constructor
  · intro s hsnap hyref
    simp [mountBinding, subscriptionInit, subscriptionSync, getActiveY, PinnedOn,
      hres, hdyn, hsnap, hyref]
  · intro s a hpin
    obtain ⟨hyref, hsub, hsnap⟩ := hpin
    obtain ⟨v, hv⟩ := Option.isSome_iff_exists.mp hsnap
    refine ⟨?_, ?_, ?_⟩
    · intro b
      constructor
      · simp [switchSource, stateAtomRead, hres, hv]
      · simp [switchSource, PinnedOn, hres, hyref, hsub, hv]
    · intro n c hne
      have hdeliver : extMutate cfg s n c =
          { s with content := Function.update s.content n c } := by
        simp only [extMutate, deliverEvent]
        rw [if_neg]
        simp [hsub]
        exact fun h => hne h.symm
      refine ⟨?_, ?_, ?_⟩
      · rw [hdeliver]
        simp [stateAtomRead, hres, hv]
      · rw [hdeliver]
      · rw [hdeliver]
        exact ⟨hyref, hsub, hsnap⟩
    · intro c
      have hstep : extMutate cfg s a c =
          subscriptionSync cfg { s with content := Function.update s.content a c } := by
        simp [extMutate, deliverEvent, hsub]
      have hyA : getActiveY cfg { s with content := Function.update s.content a c } = a := by
        simp [getActiveY, hres, hyref]
      rw [hstep]
      rcases sync_snap_cases cfg { s with content := Function.update s.content a c } with h | h
      · left
        rw [h, hyA]
        simp
      · right
        rw [h]

/-- Concrete scenario for the C4 witness: dynamic source, pinning enabled,
node 0 holds 1 and node 1 holds 100, mounted with source node 0. -/
def cfgC4 : EngineCfg Int Int :=
  ⟨id, none, fun a b => a == b, false, true⟩

def sC4 : Sys Int Int :=
  ⟨0, fun n => if n = 0 then 1 else 100, none, none, none, none⟩

/-- Witness for C4: mounting seeds the snapshot from the pinned node, and
switching the source to node 1 afterwards does not change `get()`. -/
theorem claim_C4_pinned_source_witness :
    (mountBinding cfgC4 sC4).snap = some (cfgC4.read (sC4.content sC4.source)) ∧
    stateAtomRead cfgC4 (switchSource cfgC4 (mountBinding cfgC4 sC4) 1) =
      stateAtomRead cfgC4 (mountBinding cfgC4 sC4) := by
  have h := claim_C4_pinned_source cfgC4 rfl rfl
  have h1 := h.1 sC4 rfl rfl
  exact ⟨h1.2, ((h.2 (mountBinding cfgC4 sC4) sC4.source h1.1).1 1).1⟩

/-- Helper for C5: the filter loop starting at `pos` finds exactly the
positioned runs the relevance predicate accepts. -/
theorem arrayIndexFilterFrom_eq_any {T : Type} (index : Nat) (delta : List (DeltaOp T)) :
    ∀ pos : Nat,
      arrayIndexFilterFrom index pos delta =
        (opStartPositions pos delta).any (relevantOp index) := by
  induction delta with
  | nil => intro pos; simp [arrayIndexFilterFrom, opStartPositions]
  | cons op rest ih =>
    intro pos
    cases op with
    | retain n =>
      simp [arrayIndexFilterFrom, opStartPositions, relevantOp, ih]
    | insert items =>
      by_cases h : pos ≤ index <;>
        simp [arrayIndexFilterFrom, opStartPositions, relevantOp, h, ih]
    | delete n =>
      by_cases h : pos ≤ index <;>
        simp [arrayIndexFilterFrom, opStartPositions, relevantOp, h, ih]

/-- C5: for every array delta and tracked index, the `eventFilter` of
`createYArrayIndexAtom` returns true exactly when the delta contains an
insert at or before the tracked position, or a delete overlapping the
tracked position or starting at or before it; a delta whose insert/delete
runs all start strictly after the tracked position therefore yields false. -/
theorem claim_C5_array_index_filter {T : Type} (index : Nat) (delta : List (DeltaOp T)) :
    arrayIndexEventFilter index delta =
      (opStartPositions 0 delta).any (relevantOp index) :=
  arrayIndexFilterFrom_eq_any index delta 0

/-- C6 counterexample: the claim says every factory call throws synchronously
on an invalid input, but each validation block is wrapped in
`if (process.env.NODE_ENV !== 'production')`, so with
`NODE_ENV === 'production'` an empty key, a negative index and an empty path
all construct the atom without throwing. -/
theorem claim_C6_counterexample :
    createYMapKeyAtomF true (.str "") = .ok ⟨true⟩ ∧
    createYMapEntryAtomF true (.str "") = .ok ⟨true⟩ ∧
    createYArrayIndexAtomF true (.fin (-1)) = .ok ⟨true⟩ ∧
    createYPathAtomF true [] = .ok ⟨true⟩ := by
  exact ⟨rfl, rfl, rfl, rfl⟩

/-- C6 (amended): outside production mode, `createYMapKeyAtom` and
`createYMapEntryAtom` throw on an empty or non-string key,
`createYArrayIndexAtom` throws on a negative or non-integer index, and
`createYPathAtom` throws on an empty path array — synchronously from the
factory, before any atom is constructed (the error short-circuits the
handle). -/
theorem claim_C6_dev_validation (key : JsVal) (index : JsNum)
    (path : List (String ⊕ JsNum))
    (hk : isNonEmptyString key = false)
    (hi : jsIsInteger index = false ∨ jsLtZero index = true)
    (hp : path = []) :
    createYMapKeyAtomF false key = .error "[y-jotai] Map key must be a non-empty string" ∧
    createYMapEntryAtomF false key = .error "[y-jotai] Map key must be a non-empty string" ∧
    createYArrayIndexAtomF false index =
      .error "[y-jotai] Array index must be a non-negative integer" ∧
    createYPathAtomF false path = .error "[y-jotai] Path must be a non-empty array" := by
  refine ⟨?_, ?_, ?_, ?_⟩
  · simp [createYMapKeyAtomF, hk]
  · simp [createYMapEntryAtomF, hk]
  · simp [createYArrayIndexAtomF, hi]
  · simp [createYPathAtomF, hp]

/-- Witness for the amended C6 at concrete invalid inputs: key `''`, index
`-1`, path `[]`. -/
theorem claim_C6_dev_validation_witness :
    createYMapKeyAtomF false (.str "") =
      .error "[y-jotai] Map key must be a non-empty string" ∧
    createYMapEntryAtomF false (.str "") =
      .error "[y-jotai] Map key must be a non-empty string" ∧
    createYArrayIndexAtomF false (.fin (-1)) =
      .error "[y-jotai] Array index must be a non-negative integer" ∧
    createYPathAtomF false [] = .error "[y-jotai] Path must be a non-empty array" :=
  claim_C6_dev_validation (.str "") (.fin (-1)) [] (by decide)
    (Or.inr (by norm_num [jsLtZero])) rfl

/-- Helper for C7: the patch loop, run with the offset at the end of an
already-produced new-text `pre` and with the remaining old text after it,
rewrites the tail into the script's new text. -/
theorem textPatchLoop_final (ps : List DiffOp) :
    ∀ pre : List Char,
      (textPatchLoop pre.length (pre ++ scriptOld ps) ps).1 = pre ++ scriptNew ps := by
  induction ps with
  | nil => intro pre; simp [textPatchLoop, scriptOld, scriptNew]
  | cons op r ih =>
    intro pre
    cases op with
    | equal e =>
      have h1 : pre ++ scriptOld (.equal e :: r) = (pre ++ e) ++ scriptOld r := by
        simp [scriptOld]
      have h2 : pre.length + e.length = (pre ++ e).length := by
        simp
      rw [textPatchLoop, h1, h2, ih (pre ++ e)]
      simp [scriptNew]
    | del d =>
      have h1 : applyTextOp (pre ++ scriptOld (.del d :: r))
          (.deleteAt pre.length d.length) = pre ++ scriptOld r := by
        show (pre ++ scriptOld (.del d :: r)).take pre.length ++
            (pre ++ scriptOld (.del d :: r)).drop (pre.length + d.length) =
          pre ++ scriptOld r
        have hOld : pre ++ scriptOld (.del d :: r) = (pre ++ d) ++ scriptOld r := by
          simp [scriptOld]
        rw [hOld]
        have htake : ((pre ++ d) ++ scriptOld r).take pre.length = pre := by
          rw [List.append_assoc]
          exact List.take_left pre (d ++ scriptOld r)
        have hdrop : ((pre ++ d) ++ scriptOld r).drop (pre.length + d.length) =
            scriptOld r := by
          have hlen : pre.length + d.length = (pre ++ d).length := by simp
          rw [hlen, List.drop_left]
        rw [htake, hdrop]
      rw [textPatchLoop, h1, ih pre]
      simp [scriptNew]
    | ins i =>
      have h1 : applyTextOp (pre ++ scriptOld (.ins i :: r))
          (.insertAt pre.length i) = (pre ++ i) ++ scriptOld r := by
        show (pre ++ scriptOld (.ins i :: r)).take pre.length ++ i ++
            (pre ++ scriptOld (.ins i :: r)).drop pre.length =
          (pre ++ i) ++ scriptOld r
        have hOld : scriptOld (.ins i :: r) = scriptOld r := by simp [scriptOld]
        rw [hOld, List.take_left, List.drop_left]
      have h2 : pre.length + i.length = (pre ++ i).length := by simp
      rw [textPatchLoop, h1, h2, ih (pre ++ i)]
      simp [scriptNew]

/-- C7: for every current text and next string, and every edit script between
them (the contract of the external diff library: its EQUAL and DELETE runs
concatenate to `current`, its EQUAL and INSERT runs to `next`), the write of
`createYTextAtom` applies only positional insert and delete operations and
leaves the text's content equal to `next`; when `current = next` it returns
before diffing and performs no operations at all. -/
theorem claim_C7_text_write (diffFn : List Char → List Char → List DiffOp)
    (current next : List Char)
    (hold : scriptOld (diffFn current next) = current)
    (hnew : scriptNew (diffFn current next) = next) :
    (yTextWrite diffFn current next).1 = next ∧
    (current = next → yTextWrite diffFn current next = (current, [])) := by
  constructor
  · by_cases h : current = next
    · simp [yTextWrite, h]
    · have := textPatchLoop_final (diffFn current next) []
      simp only [List.nil_append, List.length_nil] at this
      rw [hold, hnew] at this
      simp [yTextWrite, h, this]
  · intro h
    simp [yTextWrite, h]

/-- Concrete edit script for the C7 witness: `abc → axc` via
`EQUAL "a", DELETE "b", INSERT "x", EQUAL "c"`. -/
def diffC7 : List Char → List Char → List DiffOp := fun _ _ =>
  [.equal ['a'], .del ['b'], .ins ['x'], .equal ['c']]

/-- Witness for C7 at a concrete input: patching `"abc"` with the script
produces `"axc"`. -/
theorem claim_C7_text_write_witness :
    (yTextWrite diffC7 ['a', 'b', 'c'] ['a', 'x', 'c']).1 = ['a', 'x', 'c'] :=
  (claim_C7_text_write diffC7 ['a', 'b', 'c'] ['a', 'x', 'c'] (by decide) (by decide)).1



/-- Helper: a successful lookup returns an entry of the list. -/
theorem jsLookup_eq_some_mem {l : List (String × JsVal)} {k : String} {v : JsVal}
    (h : jsLookup l k = some v) : (k, v) ∈ l := by
  induction l with
  | nil => simp [jsLookup] at h
  | cons e r ih =>
    obtain ⟨a, b⟩ := e
    by_cases he : a = k
    · simp only [jsLookup] at h
      rw [if_pos (by simpa using he)] at h
      simp only [Option.some.injEq] at h
      exact List.mem_cons.mpr (Or.inl (by rw [he, h]))
    · simp only [jsLookup] at h
      rw [if_neg (by simpa using he)] at h
      exact List.mem_cons_of_mem _ (ih h)

/-- Helper: a lookup succeeds exactly when the key occurs in the list. -/
theorem jsLookup_isSome_iff_mem {l : List (String × JsVal)} {k : String} :
    (jsLookup l k).isSome = true ↔ k ∈ l.map Prod.fst := by
  induction l with
  | nil => simp [jsLookup]
  | cons e r ih =>
    obtain ⟨a, b⟩ := e
    by_cases he : a = k
    · simp [jsLookup, he]
    · simp only [jsLookup]
      rw [if_neg (by simpa using he)]
      simp only [List.map_cons, List.mem_cons]
      rw [ih]
      constructor
      · exact fun h => Or.inr h
      · rintro (h | h)
        · exact absurd h.symm he
        · exact h

/-- Helper: with unique keys, looking up the key of a member entry returns
exactly that entry's value. -/
theorem jsLookup_of_nodup_mem {l : List (String × JsVal)} {k : String} {v : JsVal}
    (hnd : (l.map Prod.fst).Nodup) (hm : (k, v) ∈ l) : jsLookup l k = some v := by
  induction l with
  | nil => simp at hm
  | cons e r ih =>
    obtain ⟨a, b⟩ := e
    simp only [List.map_cons, List.nodup_cons] at hnd
    rcases List.mem_cons.mp hm with h | h
    · have ha : k = a := congrArg Prod.fst h
      have hb : v = b := congrArg Prod.snd h
      simp only [jsLookup]
      rw [if_pos (by simp [ha]), hb]
    · have hk : k ∈ r.map Prod.fst := List.mem_map.mpr ⟨(k, v), h, rfl⟩
      have he : a ≠ k := fun hek => hnd.1 (hek ▸ hk)
      simp only [jsLookup]
      rw [if_neg (by simpa using he)]
      exact ih hnd.2 h

/-- Helper: lookup over an appended list. -/
theorem jsLookup_append (l₁ l₂ : List (String × JsVal)) (k : String) :
    jsLookup (l₁ ++ l₂) k =
      match jsLookup l₁ k with
      | some v => some v
      | none => jsLookup l₂ k := by
  induction l₁ with
  | nil => simp [jsLookup]
  | cons e r ih =>
    simp only [List.cons_append, jsLookup]
    by_cases he : (e.1 == k) = true
    · rw [if_pos he, if_pos he]
    · rw [if_neg he, if_neg he]
      exact ih

/-- Helper: lookup at `k` is unchanged by the in-place replacement `ymSet`
performs at a different key. -/
theorem jsLookup_map_replace_other (m : List (String × JsVal)) {k' k : String}
    (v : JsVal) (hne : k' ≠ k) :
    jsLookup (m.map (fun e => if e.1 == k' then (k', v) else e)) k = jsLookup m k := by
  induction m with
  | nil => simp [jsLookup]
  | cons e r ih =>
    obtain ⟨a, b⟩ := e
    by_cases he : a = k'
    · simp only [List.map_cons]
      rw [if_pos (by simpa using he)]
      simp only [jsLookup]
      rw [if_neg (by simpa using hne), if_neg (by simp [show a ≠ k from he ▸ hne])]
      exact ih
    · simp only [List.map_cons]
      rw [if_neg (by simpa using he)]
      simp only [jsLookup]
      by_cases hk : (a == k) = true
      · rw [if_pos hk, if_pos hk]
      · rw [if_neg hk, if_neg hk]
        exact ih

/-- Helper: the in-place replacement at `k` rewrites a present key's value. -/
theorem jsLookup_map_replace_same (m : List (String × JsVal)) (k : String) (v : JsVal) :
    jsLookup (m.map (fun e => if e.1 == k then (k, v) else e)) k =
      (jsLookup m k).map (fun _ => v) := by
  induction m with
  | nil => simp [jsLookup]
  | cons e r ih =>
    obtain ⟨a, b⟩ := e
    by_cases he : (a == k) = true
    · simp only [List.map_cons]
      rw [if_pos he]
      simp only [jsLookup]
      rw [if_pos (by simp), if_pos he]
      rfl
    · simp only [List.map_cons]
      rw [if_neg he]
      simp only [jsLookup]
      rw [if_neg he, if_neg he]
      exact ih

/-- Helper: filtering out a different key leaves a lookup unchanged. -/
theorem jsLookup_filter_other (m : List (String × JsVal)) {k' k : String} (hne : k' ≠ k) :
    jsLookup (m.filter (fun e => !(e.1 == k'))) k = jsLookup m k := by
  induction m with
  | nil => simp [jsLookup]
  | cons e r ih =>
    obtain ⟨a, b⟩ := e
    by_cases he : a = k'
    · rw [List.filter_cons_of_neg (by simpa using he)]
      simp only [jsLookup]
      rw [if_neg (by simp [show a ≠ k from he ▸ hne])]
      exact ih
    · rw [List.filter_cons_of_pos (by simpa using he)]
      simp only [jsLookup]
      by_cases hk : ((a, b).1 == k) = true
      · rw [if_pos hk, if_pos hk]
      · rw [if_neg hk, if_neg hk]
        exact ih

/-- Helper: filtering out a key removes it from lookups. -/
theorem jsLookup_filter_same (m : List (String × JsVal)) (k : String) :
    jsLookup (m.filter (fun e => !(e.1 == k))) k = none := by
  induction m with
  | nil => simp [jsLookup]
  | cons e r ih =>
    obtain ⟨a, b⟩ := e
    by_cases he : a = k
    · rw [List.filter_cons_of_neg (by simpa using he)]
      exact ih
    · rw [List.filter_cons_of_pos (by simpa using he)]
      simp only [jsLookup]
      rw [if_neg (by simpa using he)]
      exact ih

/-- Helper: `Y.Map.has` agrees with `Y.Map.get`'s success. -/
theorem ymHas_eq_isSome (m : YMapM) (k : String) :
    ymHas m k = (ymGet m k).isSome := by
  induction m with
  | nil => simp [ymHas, ymGet, jsLookup]
  | cons e r ih =>
    simp only [ymHas, ymGet, List.any_cons, jsLookup]
    by_cases he : (e.1 == k) = true
    · rw [if_pos he, he]
      simp
    · have hf : (e.1 == k) = false := by simpa using he
      rw [if_neg he, hf]
      simpa [ymHas, ymGet] using ih

/-- Helper: `get` after `set` at the same key. -/
theorem ymGet_set_same (m : YMapM) (k : String) (v : JsVal) :
    ymGet (ymSet m k v) k = some v := by
  unfold ymSet
  by_cases hh : ymHas m k = true
  · rw [if_pos hh, show ymGet (List.map (fun e => if e.1 == k then (k, v) else e) m) k =
      (jsLookup m k).map (fun _ => v) from jsLookup_map_replace_same m k v]
    rw [ymHas_eq_isSome] at hh
    obtain ⟨w, hw⟩ := Option.isSome_iff_exists.mp hh
    rw [show jsLookup m k = some w from hw]
    rfl
  · rw [if_neg hh, show ymGet (m ++ [(k, v)]) k = _ from jsLookup_append m [(k, v)] k]
    rw [ymHas_eq_isSome] at hh
    have : ymGet m k = none := by
      cases hg : ymGet m k with
      | none => rfl
      | some w => rw [hg] at hh; simp at hh
    rw [show jsLookup m k = none from this]
    simp [jsLookup]

/-- Helper: `get` after `set` at a different key. -/
theorem ymGet_set_other (m : YMapM) {k' k : String} (v : JsVal) (hne : k' ≠ k) :
    ymGet (ymSet m k' v) k = ymGet m k := by
  unfold ymSet
  by_cases hh : ymHas m k' = true
  · rw [if_pos hh]
    exact jsLookup_map_replace_other m v hne
  · rw [if_neg hh, show ymGet (m ++ [(k', v)]) k = _ from jsLookup_append m [(k', v)] k]
    cases hg : jsLookup m k with
    | none =>
      simp only [jsLookup]
      rw [if_neg (by simpa using hne)]
      simp [jsLookup, ymGet, hg]
    | some w => simp [ymGet, hg]

/-- Helper: `get` after `delete` at the same key. -/
theorem ymGet_delete_same (m : YMapM) (k : String) :
    ymGet (ymDelete m k) k = none :=
  jsLookup_filter_same m k

/-- Helper: `get` after `delete` at a different key. -/
theorem ymGet_delete_other (m : YMapM) {k' k : String} (hne : k' ≠ k) :
    ymGet (ymDelete m k') k = ymGet m k :=
  jsLookup_filter_other m hne

/-- Helper for C8: one loop iteration at its own key behaves exactly as the
claim's per-key description, as a function of the key's stored value. -/
theorem fieldsWriteKey_at_key (dU : Bool) (fe : JsVal → JsVal → Bool)
    (nx : List (String × JsVal)) (m : YMapM) (k : String) :
    (ymGet (fieldsWriteKey dU fe nx m k).1 k,
      opsOn k (fieldsWriteKey dU fe nx m k).2) =
    fieldsWriteSpec dU fe nx k (ymGet m k) := by
  unfold fieldsWriteKey fieldsWriteSpec
  rw [ymHas_eq_isSome]
  by_cases h0 : hasOwn nx k = false
  · rw [if_pos h0, if_pos h0]
    simp [opsOn]
  · rw [if_neg h0, if_neg h0]
    by_cases h1 : getOwn nx k = JsVal.undefined
    · rw [if_pos h1, if_pos h1]
      by_cases h2 : dU = true ∧ (ymGet m k).isSome = true
      · rw [if_pos h2, if_pos h2]
        simp [ymGet_delete_same, opsOn, MapWriteOp.key]
      · rw [if_neg h2, if_neg h2]
        simp [opsOn]
    · rw [if_neg h1, if_neg h1]
      by_cases h3 : (ymGet m k).isSome = false
      · rw [if_pos h3, if_pos h3]
        simp [ymGet_set_same, opsOn, MapWriteOp.key]
      · rw [if_neg h3, if_neg h3]
        by_cases h4 : fe ((ymGet m k).getD .undefined) (getOwn nx k) = true
        · rw [if_pos h4, if_pos h4]
          simp [opsOn]
        · rw [if_neg h4, if_neg h4]
          simp [ymGet_set_same, opsOn, MapWriteOp.key]

/-- Helper for C8: one loop iteration at a different key never touches this
key's stored value and issues no operation against it. -/
theorem fieldsWriteKey_at_other (dU : Bool) (fe : JsVal → JsVal → Bool)
    (nx : List (String × JsVal)) (m : YMapM) {k' k : String} (hne : k' ≠ k) :
    ymGet (fieldsWriteKey dU fe nx m k').1 k = ymGet m k ∧
    opsOn k (fieldsWriteKey dU fe nx m k').2 = [] := by
  unfold fieldsWriteKey
  by_cases h0 : hasOwn nx k' = false
  · rw [if_pos h0]
    exact ⟨rfl, rfl⟩
  · rw [if_neg h0]
    by_cases h1 : getOwn nx k' = JsVal.undefined
    · rw [if_pos h1]
      by_cases h2 : dU = true ∧ ymHas m k' = true
      · rw [if_pos h2]
        exact ⟨ymGet_delete_other m hne, by simp [opsOn, MapWriteOp.key, hne]⟩
      · rw [if_neg h2]
        exact ⟨rfl, rfl⟩
    · rw [if_neg h1]
      by_cases h3 : ymHas m k' = false
      · rw [if_pos h3]
        exact ⟨ymGet_set_other m _ hne, by simp [opsOn, MapWriteOp.key, hne]⟩
      · rw [if_neg h3]
        by_cases h4 : fe ((ymGet m k').getD .undefined) (getOwn nx k') = true
        · rw [if_pos h4]
          exact ⟨rfl, rfl⟩
        · rw [if_neg h4]
          exact ⟨ymGet_set_other m _ hne, by simp [opsOn, MapWriteOp.key, hne]⟩

/-- C8: through the multi-key fields projection's write, each configured key
behaves exactly as claimed, as a function of its stored value before the
write: a key absent from the `next` object (or not configured at all) is left
untouched with no operation issued; a key present with value `undefined` is
deleted exactly when `deleteOnUndefined` is set and the key is stored, and is
ignored otherwise; a key present with a defined value is written exactly when
it is missing from the map or its stored value differs under the per-field
equality (default `Object.is`), and is skipped otherwise. -/
theorem claim_C8_fields_write (dU : Bool) (fe : JsVal → JsVal → Bool)
    (nx : List (String × JsVal)) (k : String) :
    ∀ keys : List String, keys.Nodup → ∀ m : YMapM,
      (k ∈ keys →
        (ymGet (fieldsWrite dU fe nx m keys).1 k,
          opsOn k (fieldsWrite dU fe nx m keys).2) =
          fieldsWriteSpec dU fe nx k (ymGet m k)) ∧
      (k ∉ keys →
        ymGet (fieldsWrite dU fe nx m keys).1 k = ymGet m k ∧
        opsOn k (fieldsWrite dU fe nx m keys).2 = []) := by
  intro keys
  induction keys with
  | nil =>
    intro _ m
    exact ⟨fun h => absurd h (List.not_mem_nil k), fun _ => ⟨rfl, rfl⟩⟩
  | cons k0 ks ih =>
    intro hnd m
    obtain ⟨hk0, hnd'⟩ := List.nodup_cons.mp hnd
    have hops : opsOn k ((fieldsWriteKey dU fe nx m k0).2 ++
        (fieldsWrite dU fe nx (fieldsWriteKey dU fe nx m k0).1 ks).2) =
        opsOn k (fieldsWriteKey dU fe nx m k0).2 ++
        opsOn k (fieldsWrite dU fe nx (fieldsWriteKey dU fe nx m k0).1 ks).2 :=
      by simp [opsOn]
    constructor
    · intro hmem
      by_cases hkk : k = k0
      · subst hkk
        have htail := (ih hnd' (fieldsWriteKey dU fe nx m k).1).2 hk0
        simp only [fieldsWrite, hops, htail.1, htail.2, List.append_nil]
        exact fieldsWriteKey_at_key dU fe nx m k
      · have hmem' : k ∈ ks := by
          rcases List.mem_cons.mp hmem with h | h
          · exact absurd h hkk
          · exact h
        have hstep := fieldsWriteKey_at_other dU fe nx m (Ne.symm hkk)
        have htail := (ih hnd' (fieldsWriteKey dU fe nx m k0).1).1 hmem'
        simp only [fieldsWrite, hops, hstep.2, List.nil_append, htail, hstep.1]
    · intro hmem
      have hk : k ≠ k0 := fun h => hmem (h ▸ List.mem_cons_self k0 ks)
      have hmem' : k ∉ ks := fun h => hmem (List.mem_cons_of_mem k0 h)
      have hstep := fieldsWriteKey_at_other dU fe nx m (Ne.symm hk)
      have htail := (ih hnd' (fieldsWriteKey dU fe nx m k0).1).2 hmem'
      simp [fieldsWrite, hops, hstep.2, hstep.1, htail.1, htail.2]

/-- Concrete inputs for the C8 witness: writing `{ title: "New" }` over a map
holding `title = "Old"`, `count = 2`, with keys `["title", "count"]`. -/
def nxC8 : List (String × JsVal) := [("title", .str "New")]

def mC8 : YMapM := [("title", .str "Old"), ("count", .num (.fin 2))]

/-- Witness for C8: the differing configured key `title` is rewritten exactly
as the per-key description predicts from its stored value. -/
theorem claim_C8_fields_write_witness :
    (ymGet (fieldsWrite false defaultFieldEquals nxC8 mC8 ["title", "count"]).1 "title",
      opsOn "title" (fieldsWrite false defaultFieldEquals nxC8 mC8 ["title", "count"]).2) =
      fieldsWriteSpec false defaultFieldEquals nxC8 "title" (ymGet mC8 "title") :=
  (claim_C8_fields_write false defaultFieldEquals nxC8 "title" ["title", "count"]
    (by decide) mC8).1 (by decide)

/-- The caller-supplied options of `createYAtom` before defaulting: `equals`
may be omitted (`src/index.ts` lines 60-96). -/
structure CreateYAtomOpts (C : Type) where
  read : C → JsVal
  write : Option (C → JsVal → C)
  equals : Option (JsVal → JsVal → Bool)
  resubscribe : Bool
  hasYAtom : Bool

/-- The destructuring default `equals = defaultEquals` in `createYAtom`
(`src/index.ts` line 110). -/
def resolvedEquals (σ : Heap) {C : Type} (opts : CreateYAtomOpts C) :
    JsVal → JsVal → Bool :=
  opts.equals.getD (fun a b => defaultEquals σ a b)

/-- Heap separating shallow from deep equality: objects 0 and 1 both hold a
single key `a` whose values are the distinct (but both empty) objects 2
and 3. -/
def heapC9 : Heap := fun i =>
  if i = 0 then [("a", .obj 2)] else if i = 1 then [("a", .obj 3)] else []

/-- C9: a projection created without an explicit `equals` option uses
`shallowEqual` (via `defaultEquals`) to suppress redundant snapshot updates
and redundant writes — and that is genuinely shallow, not deep equality:
on `heapC9`, objects 0 and 1 are deep-equal but not shallow-equal. -/
theorem claim_C9_default_equals {C : Type} (opts : CreateYAtomOpts C)
    (h : opts.equals = none) (σ : Heap) :
    resolvedEquals σ opts = (fun a b => shallowEqual σ a b) ∧
    shallowEqual heapC9 (.obj 0) (.obj 1) = false ∧
    deepEqualsF heapC9 2 (.obj 0) (.obj 1) = true := by
  refine ⟨?_, ?_, ?_⟩
  · rw [resolvedEquals, h]
    rfl
  · decide
  · decide

/-- Concrete options for the C9 witness: no `equals` supplied. -/
def optsC9 : CreateYAtomOpts Unit :=
  ⟨fun _ => .undefined, none, none, false, false⟩

/-- Witness for C9: with no `equals` option the resolved equality is
`shallowEqual`. -/
theorem claim_C9_default_equals_witness :
    resolvedEquals heapC9 optsC9 = (fun a b => shallowEqual heapC9 a b) :=
  (claim_C9_default_equals optsC9 rfl heapC9).1

/-- Helper for C10: on two distinct object references, `shallowEqual` reduces
to the key-count check plus the per-key `Object.is` scan. -/
theorem shallowEqual_obj (σ : Heap) {ia ib : Nat} (hne : ia ≠ ib) :
    shallowEqual σ (.obj ia) (.obj ib) =
      (if (σ ia).length = (σ ib).length then
        (σ ia).all fun e =>
          match jsLookup (σ ib) e.1 with
          | some w => objectIs e.2 w
          | none => false
       else false) := by
  rw [shallowEqual, if_neg (by simp [objectIs, hne])]

/-- C10: `shallowEqual` uses SameValue (`Object.is`) semantics, not strict
reference identity: it is reflexive on every value, true on `NaN` vs `NaN`,
false on `0` vs `-0`; and on two distinct non-null objects with well-formed
(duplicate-free) key sets it is true exactly when they have the same set of
own enumerable keys with pairwise `Object.is`-equal values — with no
recursion into nested objects. -/
theorem claim_C10_shallow_equal (σ : Heap) :
    (∀ x : JsVal, shallowEqual σ x x = true) ∧
    shallowEqual σ (.num .nan) (.num .nan) = true ∧
    shallowEqual σ (.num (.fin 0)) (.num .negZero) = false ∧
    (∀ ia ib : Nat, ia ≠ ib →
      ((σ ia).map Prod.fst).Nodup → ((σ ib).map Prod.fst).Nodup →
      (shallowEqual σ (.obj ia) (.obj ib) = true ↔
        (∀ kk : String,
            (∃ v, jsLookup (σ ia) kk = some v) ↔ (∃ w, jsLookup (σ ib) kk = some w)) ∧
        (∀ (kk : String) (v w : JsVal),
            jsLookup (σ ia) kk = some v → jsLookup (σ ib) kk = some w →
            objectIs v w = true))) := by
  refine ⟨?_, ?_, ?_, ?_⟩
  · intro x
    rw [shallowEqual.eq_def, if_pos (by rw [objectIs]; exact beq_self_eq_true x)]
  · rw [shallowEqual.eq_def, if_pos (by rw [objectIs]; decide)]
  · rw [shallowEqual.eq_def, if_neg (by rw [objectIs]; decide)]
  · intro ia ib hne hna hnb
    rw [shallowEqual_obj σ hne]
    constructor
    · intro h
      have hlen : (σ ia).length = (σ ib).length := by
        by_contra hl
        rw [if_neg hl] at h
        exact Bool.false_ne_true h
      rw [if_pos hlen] at h
      have hall := List.all_eq_true.mp h
      have hforward : ∀ (kk : String) (v : JsVal), jsLookup (σ ia) kk = some v →
          ∃ w, jsLookup (σ ib) kk = some w ∧ objectIs v w = true := by
        intro kk v hv
        have hm := jsLookup_eq_some_mem hv
        have := hall (kk, v) hm
        cases hw : jsLookup (σ ib) kk with
        | none => rw [hw] at this; exact absurd this (by simp)
        | some w => rw [hw] at this; exact ⟨w, rfl, this⟩
      have hsubset : ((σ ia).map Prod.fst).toFinset ⊆ ((σ ib).map Prod.fst).toFinset := by
        intro kk hkk
        rw [List.mem_toFinset] at hkk ⊢
        obtain ⟨v, hv⟩ := Option.isSome_iff_exists.mp (jsLookup_isSome_iff_mem.mpr hkk)
        obtain ⟨w, hw, _⟩ := hforward kk v hv
        exact jsLookup_isSome_iff_mem.mp (by rw [hw]; rfl)
      have hcard : ((σ ib).map Prod.fst).toFinset.card ≤
          ((σ ia).map Prod.fst).toFinset.card := by
        rw [List.toFinset_card_of_nodup hna, List.toFinset_card_of_nodup hnb]
        simp [hlen]
      have hfin : ((σ ia).map Prod.fst).toFinset = ((σ ib).map Prod.fst).toFinset :=
        Finset.eq_of_subset_of_card_le hsubset hcard
      constructor
      · intro kk
        constructor
        · rintro ⟨v, hv⟩
          obtain ⟨w, hw, _⟩ := hforward kk v hv
          exact ⟨w, hw⟩
        · rintro ⟨w, hw⟩
          have hkb : kk ∈ (σ ib).map Prod.fst :=
            jsLookup_isSome_iff_mem.mp (by rw [hw]; rfl)
          have hka : kk ∈ (σ ia).map Prod.fst := by
            rw [← List.mem_toFinset, hfin, List.mem_toFinset]
            exact hkb
          exact Option.isSome_iff_exists.mp (jsLookup_isSome_iff_mem.mpr hka)
      · intro kk v w hv hw
        obtain ⟨w', hw', his⟩ := hforward kk v hv
        rw [hw] at hw'
        exact (Option.some.injEq .. ▸ hw') ▸ his
    · rintro ⟨hkeys, hpair⟩
      have hfin : ((σ ia).map Prod.fst).toFinset = ((σ ib).map Prod.fst).toFinset := by
        ext kk
        rw [List.mem_toFinset, List.mem_toFinset]
        constructor
        · intro hk
          obtain ⟨v, hv⟩ := Option.isSome_iff_exists.mp (jsLookup_isSome_iff_mem.mpr hk)
          obtain ⟨w, hw⟩ := (hkeys kk).mp ⟨v, hv⟩
          exact jsLookup_isSome_iff_mem.mp (by rw [hw]; rfl)
        · intro hk
          obtain ⟨w, hw⟩ := Option.isSome_iff_exists.mp (jsLookup_isSome_iff_mem.mpr hk)
          obtain ⟨v, hv⟩ := (hkeys kk).mpr ⟨w, hw⟩
          exact jsLookup_isSome_iff_mem.mp (by rw [hv]; rfl)
      have hlen : (σ ia).length = (σ ib).length := by
        have ha := List.toFinset_card_of_nodup hna
        have hb := List.toFinset_card_of_nodup hnb
        rw [hfin] at ha
        rw [hb] at ha
        simpa using ha.symm
      rw [if_pos hlen]
      apply List.all_eq_true.mpr
      rintro ⟨kk, v⟩ hm
      have hv : jsLookup (σ ia) kk = some v := jsLookup_of_nodup_mem hna hm
      obtain ⟨w, hw⟩ := (hkeys kk).mp ⟨v, hv⟩
      rw [hw]
      exact hpair kk v w hv hw

/-- A small concrete heap for the C10 witness. -/
def heapC10 : Heap := fun i =>
  if i = 0 then [("a", .num (.fin 1))] else if i = 1 then [("a", .num (.fin 1))] else []

/-- Witness for C10 at concrete inputs: reflexivity on an object reference,
`NaN` vs `NaN`, and `0` vs `-0`. -/
theorem claim_C10_shallow_equal_witness :
    shallowEqual heapC10 (.num .nan) (.num .nan) = true ∧
    shallowEqual heapC10 (.num (.fin 0)) (.num .negZero) = false ∧
    shallowEqual heapC10 (.obj 5) (.obj 5) = true :=
  ⟨(claim_C10_shallow_equal heapC10).2.1, (claim_C10_shallow_equal heapC10).2.2.1,
    (claim_C10_shallow_equal heapC10).1 (.obj 5)⟩
